import Mathlib

/-!
# Offline-message storage of gopush-cluster

A shallow embedding of `src/message/mysql.go` (the durable backend) and
`src/message/redis.go` (the cache backend), followed by theorems about them.

Conventions of the embedding:

* a Go `error` is an `Option GoError` (`none` is `nil`); a Go result pair
  `([]string, error)` is an `Except GoError (List String)`;
* a Go `map[string]T` is an association list in range order, looked up with
  `List.lookup`; its values are handles (indices) into a world of stores;
* `int64` and `time.Time` values are integers on one time axis; the only machine
  arithmetic of the two files, `-1*(Conf.RedisMaxStore+1)`, wraps at 64 bits;
* the cache server keeps every score as a double: a score or a score bound sent
  as an `int64` is rounded to the nearest double (`round53`) on arrival;
* the hash ring (`hash.Ketama`), the JSON codec and the configuration live
  outside the two files and are parameters;
* every store carries the log of what it was asked and a fault oracle telling,
  for the n-th request it receives, whether that request fails.
-/

namespace Gopush

/-! ## Shared types -/

/-- Modelled from the spec: the `Message` type, declared outside the two source
files: an opaque application payload plus an expiration instant. -/
structure Message where
  Msg : String
  Expire : Int
deriving DecidableEq, Repr

/-- Modelled from the spec: the `DelMessageInfo` type, declared outside the two
source files: a key plus the message encodings to remove. -/
structure DelMessageInfo where
  Key : String
  Msgs : List String
deriving DecidableEq, Repr

/-- Go error values: the two sentinel errors of the package and the errors
produced by a store client. -/
inductive GoError where
  | MYSQLNoDBErr
  | RedisNoConnErr
  | driver (text : String)
deriving DecidableEq, Repr

/-! ## mysql.go -/

/-- The constant `defaultMYSQLNode`. -/
def defaultMYSQLNode : String := "node1"

/-- A row of table `message`, with the columns the three statements name.
Column `key` is named by `getSQL` only; `saveSQL` does not list it, so an
inserted row holds NULL there. Column `msg` may be NULL in rows written by
others, which is what makes `rows.Scan` fail. -/
structure Row where
  key : Option String
  sub : String
  gid : Int
  mid : Int
  expire : Int
  msg : Option String
  ctime : Int
  mtime : Int
deriving DecidableEq, Repr

/-- The three statements of mysql.go with their bound arguments. -/
inductive Stmt where
  /-- INSERT INTO message(sub,gid,mid,expire,msg,ctime,mtime) VALUES(?,?,?,?,?,?,?) -/
  | saveSQL (sub : String) (gid mid expire : Int) (msg : String) (ctime mtime : Int)
  /-- SELECT msg FROM message WHERE key=? AND mid>? AND expire>? -/
  | getSQL (key : String) (mid now : Int)
  /-- DELETE FROM message WHERE expire<=? -/
  | delExpireSQL (now : Int)
deriving DecidableEq, Repr

/-- The table after a statement. -/
def Stmt.effect : Stmt → List Row → List Row
  | .saveSQL sub gid mid expire msg ctime mtime, rows =>
    rows ++ [{ key := none, sub := sub, gid := gid, mid := mid, expire := expire,
               msg := some msg, ctime := ctime, mtime := mtime }]
  | .getSQL _ _ _, rows => rows
  | .delExpireSQL now, rows => rows.filter (fun r => !decide (r.expire ≤ now))

/-- The rows a statement returns (a comparison with NULL is not true). -/
def Stmt.result : Stmt → List Row → List Row
  | .getSQL key mid now, rows =>
    rows.filter (fun r => r.key == some key && decide (r.mid > mid) && decide (r.expire > now))
  | _, _ => []

/-- One database node: its table, the statements it has received, and the
failure (if any) its n-th statement meets. -/
structure DB where
  rows : List Row
  log : List Stmt
  faults : Nat → Option String

/-- The call `db.Exec(stmt, args...)`. -/
def DB.Exec (db : DB) (q : Stmt) : DB × Option GoError :=
  match db.faults db.log.length with
  | some e => ({ db with log := db.log ++ [q] }, some (GoError.driver e))
  | none => ({ db with log := db.log ++ [q], rows := q.effect db.rows }, none)

/-- The call `db.Query(stmt, args...)`. -/
def DB.Query (db : DB) (q : Stmt) : DB × Except GoError (List Row) :=
  match db.faults db.log.length with
  | some e => ({ db with log := db.log ++ [q] }, Except.error (GoError.driver e))
  | none => ({ db with log := db.log ++ [q], rows := q.effect db.rows },
             Except.ok (q.result db.rows))

/-- The loop `for rows.Next() { rows.Scan(&m); msg = append(msg, m) }`. -/
def scanRows : List Row → List String → Except GoError (List String)
  | [], acc => Except.ok acc
  | r :: rest, acc =>
    match r.msg with
    | none => Except.error (GoError.driver "converting NULL to string is unsupported")
    | some m => scanRows rest (acc ++ [m])

/-- The database nodes, by handle. -/
abbrev MYSQLWorld := Nat → DB

/-- The struct `MYSQLStorage`. -/
structure MYSQLStorage where
  Pool : List (String × Nat)
  Ketama : String → String

/-- The method `MYSQLStorage.getConn`. -/
def MYSQLStorage.getConn (s : MYSQLStorage) (key : String) : Option Nat :=
  let node := if s.Pool.length > 1 then s.Ketama key else defaultMYSQLNode
  match s.Pool.lookup node with
  | none => none
  | some p => some p

/-- The method `MYSQLStorage.Save`; `json` is `json.Marshal`, `now` is `time.Now()`. -/
def MYSQLStorage.Save (json : Message → String) (s : MYSQLStorage) (w : MYSQLWorld)
    (now : Int) (key : String) (msg : Message) (mid : Int) : MYSQLWorld × Option GoError :=
  match s.getConn key with
  | none => (w, some GoError.MYSQLNoDBErr)
  | some h =>
    let message := json msg
    let r := (w h).Exec (Stmt.saveSQL key 0 mid msg.Expire message now now)
    match r.2 with
    | some err => (Function.update w h r.1, some err)
    | none => (Function.update w h r.1, none)

/-- The method `MYSQLStorage.Get`. -/
def MYSQLStorage.Get (s : MYSQLStorage) (w : MYSQLWorld) (now : Int) (key : String)
    (mid : Int) : MYSQLWorld × Except GoError (List String) :=
  match s.getConn key with
  | none => (w, Except.error GoError.MYSQLNoDBErr)
  | some h =>
    let r := (w h).Query (Stmt.getSQL key mid now)
    match r.2 with
    | Except.error err => (Function.update w h r.1, Except.error err)
    | Except.ok rows => (Function.update w h r.1, scanRows rows [])

/-- The method `MYSQLStorage.DelMulti`. -/
def MYSQLStorage.DelMulti (_s : MYSQLStorage) (w : MYSQLWorld) (_info : DelMessageInfo) :
    MYSQLWorld × Option GoError :=
  (w, none)

/-- The method `MYSQLStorage.DelKey`. -/
def MYSQLStorage.DelKey (_s : MYSQLStorage) (w : MYSQLWorld) (_key : String) :
    MYSQLWorld × Option GoError :=
  (w, none)

/-- The loop of `MYSQLStorage.DelAllExpired` over the remaining pool entries. -/
def delAllExpiredLoop (now : Int) : List (String × Nat) → MYSQLWorld → MYSQLWorld × Option GoError
  | [], w => (w, none)
  | (_, h) :: rest, w =>
    let r := (w h).Exec (Stmt.delExpireSQL now)
    match r.2 with
    | some err => (Function.update w h r.1, some err)
    | none => delAllExpiredLoop now rest (Function.update w h r.1)

/-- The method `MYSQLStorage.DelAllExpired`. -/
def MYSQLStorage.DelAllExpired (s : MYSQLStorage) (w : MYSQLWorld) (now : Int) :
    MYSQLWorld × Option GoError :=
  delAllExpiredLoop now s.Pool w

/-! ## redis.go -/

/-- The constant `defaultRedisNode`. -/
def defaultRedisNode : String := "node1"

/-- Two's-complement wrap of an integer into the range of a 64-bit Go `int`. -/
def wrap64 (x : Int) : Int := (x + 2 ^ 63) % 2 ^ 64 - 2 ^ 63

/-- The range of a Go `int64`. -/
def isInt64 (x : Int) : Prop := -2 ^ 63 ≤ x ∧ x < 2 ^ 63

instance isInt64Decidable (x : Int) : Decidable (isInt64 x) :=
  inferInstanceAs (Decidable (-2 ^ 63 ≤ x ∧ x < 2 ^ 63))

/-- The double nearest to an integer, as the server obtains it when it parses a
score or a score bound (round to nearest, ties to the even mantissa), given by
its value. Integers of magnitude up to 2^53 are kept; above, the low bits beyond
a 53-bit mantissa are rounded away. Exact for arguments of magnitude up to 2^63,
the range of the `int64` the source sends. -/
def round53 (x : Int) : Int :=
  let n := x.natAbs
  if n ≤ 2 ^ 53 then x
  else
    let e := (List.range 11).countP (fun k => decide (2 ^ (53 + k) ≤ n))
    let q := n / 2 ^ e
    let r := n % 2 ^ e
    let half := 2 ^ (e - 1)
    let q1 := if r > half ∨ (r = half ∧ q % 2 = 1) then q + 1 else q
    (if x < 0 then -1 else 1) * ((q1 * 2 ^ e : Nat) : Int)

/-- An ordered set: its (score, member) pairs in rank order, lowest rank first.
A stored score is a double; the scores this program writes are integers rounded
to a double, and a score is given here by its value. -/
abbrev ZSet := List (Int × String)

/-- Lexicographic comparison of two members, character by character (the order
of their UTF-8 bytes), a proper prefix coming first. -/
def charsLe : List Char → List Char → Bool
  | [], _ => true
  | _ :: _, [] => false
  | a :: as, b :: bs =>
    decide (a.toNat < b.toNat) || (decide (a.toNat = b.toNat) && charsLe as bs)

/-- Rank order of an ordered set: by stored score, ties broken by member. -/
def zle (a b : Int × String) : Prop :=
  a.1 < b.1 ∨ (a.1 = b.1 ∧ charsLe a.2.data b.2.data = true)

instance zleDecidable : DecidableRel zle := fun a b =>
  inferInstanceAs (Decidable (a.1 < b.1 ∨ (a.1 = b.1 ∧ charsLe a.2.data b.2.data = true)))

/-- ZADD on one set with the score as stored: a member already present takes the
new score. -/
def zadd (z : ZSet) (score : Int) (member : String) : ZSet :=
  List.orderedInsert zle (score, member) (z.filter (fun e => e.2 != member))

/-- ZREMRANGEBYRANK on one set: negative indices count from the highest rank. -/
def zremrangebyrank (z : ZSet) (start stop : Int) : ZSet :=
  let llen : Int := z.length
  let start1 := if start < 0 then llen + start else start
  let stop1 := if stop < 0 then llen + stop else stop
  let start2 := if start1 < 0 then 0 else start1
  if start2 > stop1 ∨ start2 ≥ llen then z
  else
    let stop2 := if stop1 ≥ llen then llen - 1 else stop1
    z.take start2.toNat ++ z.drop (stop2.toNat + 1)

/-- ZRANGEBYSCORE on one set with the exclusive lower bound as parsed and the
upper bound "+inf". -/
def zrangebyscore (z : ZSet) (min : Int) : List String :=
  (z.filter (fun e => decide (e.1 > min))).map Prod.snd

/-- ZREM of one member on one set. -/
def zrem (z : ZSet) (member : String) : ZSet :=
  z.filter (fun e => e.2 != member)

/-- The commands redis.go issues. -/
inductive Cmd where
  | ZADD (key : String) (score : Int) (member : String)
  | ZREMRANGEBYRANK (key : String) (start stop : Int)
  /-- ZRANGEBYSCORE key "(min" "+inf" -/
  | ZRANGEBYSCORE (key : String) (min : Int)
  | ZREM (key member : String)
  | DEL (key : String)
deriving DecidableEq, Repr

/-- A server reply. -/
inductive Reply where
  | int (n : Int)
  | strings (l : List String)
deriving DecidableEq, Repr

/-- The keyspace of one server: the ordered set of every key (empty when absent).
Every key holds an ordered set, so no command is answered with a type error. -/
abbrev Store := String → ZSet

/-- The server executing one command; a score and a score bound are parsed to
doubles first. -/
def Cmd.exec : Cmd → Store → Store × Reply
  | .ZADD key score member, d =>
    (Function.update d key (zadd (d key) (round53 score) member),
     Reply.int (if member ∈ (d key).map Prod.snd then 0 else 1))
  | .ZREMRANGEBYRANK key start stop, d =>
    (Function.update d key (zremrangebyrank (d key) start stop),
     Reply.int ((d key).length - (zremrangebyrank (d key) start stop).length))
  | .ZRANGEBYSCORE key min, d =>
    (d, Reply.strings (zrangebyscore (d key) (round53 min)))
  | .ZREM key member, d =>
    (Function.update d key (zrem (d key) member),
     Reply.int (if member ∈ (d key).map Prod.snd then 1 else 0))
  | .DEL key, d =>
    (Function.update d key [], Reply.int (if d key = [] then 0 else 1))

/-- The server executing a pipeline of commands in order. -/
def execAll : List Cmd → Store → Store × List Reply
  | [], d => (d, [])
  | c :: rest, d =>
    let r := c.exec d
    let rs := execAll rest r.1
    (rs.1, r.2 :: rs.2)

/-- What a client does on a connection. -/
inductive ConnOp where
  | Send (c : Cmd)
  | Flush
  | Receive
  | Do (c : Cmd)
  | Close
deriving DecidableEq, Repr

/-- One cache node: its keyspace, the connection operations performed against
it, and the failure (if any) its n-th operation meets. -/
structure RedisNode where
  data : Store
  log : List ConnOp
  faults : Nat → Option String

/-- A connection taken from a node's pool: the node, the commands written but
not yet flushed, and the replies not yet read. -/
structure Conn where
  node : RedisNode
  out : List Cmd
  pending : List Reply

/-- The call `conn.Send(cmd, args...)`: writes the command to the output buffer. -/
def Conn.Send (c : Conn) (cmd : Cmd) : Conn × Option GoError :=
  let node := { c.node with log := c.node.log ++ [ConnOp.Send cmd] }
  match c.node.faults c.node.log.length with
  | some e => ({ c with node := node }, some (GoError.driver e))
  | none => ({ c with node := node, out := c.out ++ [cmd] }, none)

/-- The call `conn.Flush()`: the server receives and executes the buffered commands. -/
def Conn.Flush (c : Conn) : Conn × Option GoError :=
  let node := { c.node with log := c.node.log ++ [ConnOp.Flush] }
  match c.node.faults c.node.log.length with
  | some e => ({ c with node := node }, some (GoError.driver e))
  | none =>
    let r := execAll c.out c.node.data
    ({ node := { node with data := r.1 }, out := [], pending := c.pending ++ r.2 }, none)

/-- The call `conn.Receive()`: reads one reply; with no reply on its way the read
ends in a timeout. -/
def Conn.Receive (c : Conn) : Conn × Except GoError Reply :=
  let node := { c.node with log := c.node.log ++ [ConnOp.Receive] }
  match c.node.faults c.node.log.length with
  | some e => ({ c with node := node }, Except.error (GoError.driver e))
  | none =>
    match c.pending with
    | [] => ({ c with node := node }, Except.error (GoError.driver "read timeout"))
    | r :: rest => ({ c with node := node, pending := rest }, Except.ok r)

/-- The call `conn.Do(cmd, args...)`: writes the command, flushes, and reads the
replies up to and including the one of this command. -/
def Conn.Do (c : Conn) (cmd : Cmd) : Conn × Except GoError Reply :=
  let node := { c.node with log := c.node.log ++ [ConnOp.Do cmd] }
  match c.node.faults c.node.log.length with
  | some e => ({ c with node := node }, Except.error (GoError.driver e))
  | none =>
    let r := execAll c.out c.node.data
    let r1 := cmd.exec r.1
    ({ node := { node with data := r1.1 }, out := [], pending := [] }, Except.ok r1.2)

/-- The call `conn.Close()`: the node as the connection leaves it. -/
def Conn.Close (c : Conn) : RedisNode :=
  { c.node with log := c.node.log ++ [ConnOp.Close] }

/-- The helper `redis.Strings`. -/
def redisStrings : Except GoError Reply → Except GoError (List String)
  | Except.error err => Except.error err
  | Except.ok (Reply.strings l) => Except.ok l
  | Except.ok (Reply.int _) =>
    Except.error (GoError.driver "redigo: unexpected type for Strings")

/-- The cache nodes, by handle. -/
abbrev RedisWorld := Nat → RedisNode

/-- The struct `RedisStorage`. -/
structure RedisStorage where
  Pool : List (String × Nat)
  Ketama : String → String

/-- The method `RedisStorage.getConn`: the handle of the node and a connection
from its pool. -/
def RedisStorage.getConn (s : RedisStorage) (w : RedisWorld) (key : String) :
    Option (Nat × Conn) :=
  let node := if s.Pool.length > 1 then s.Ketama key else defaultRedisNode
  match s.Pool.lookup node with
  | none => none
  | some p => some (p, { node := w p, out := [], pending := [] })

/-- The body of `RedisStorage.Save` between taking and closing the connection;
`json` is `json.Marshal`, `maxStore` is `Conf.RedisMaxStore`. -/
def saveBody (json : Message → String) (maxStore : Int) (conn : Conn) (key : String)
    (msg : Message) (mid : Int) : Conn × Option GoError :=
  let message := json msg
  let r1 := conn.Send (Cmd.ZADD key mid message)
  match r1.2 with
  | some err => (r1.1, some err)
  | none =>
    let r2 := r1.1.Send (Cmd.ZREMRANGEBYRANK key 0 (wrap64 (-1 * wrap64 (maxStore + 1))))
    match r2.2 with
    | some err => (r2.1, some err)
    | none =>
      let r3 := r2.1.Flush
      match r3.2 with
      | some err => (r3.1, some err)
      | none =>
        let r4 := r3.1.Receive
        match r4.2 with
        | Except.error err => (r4.1, some err)
        | Except.ok _ =>
          let r5 := r4.1.Receive
          match r5.2 with
          | Except.error err => (r5.1, some err)
          | Except.ok _ => (r5.1, none)

/-- The method `RedisStorage.Save`. -/
def RedisStorage.Save (json : Message → String) (maxStore : Int) (s : RedisStorage)
    (w : RedisWorld) (key : String) (msg : Message) (mid : Int) : RedisWorld × Option GoError :=
  match s.getConn w key with
  | none => (w, some GoError.RedisNoConnErr)
  | some (h, conn) =>
    let r := saveBody json maxStore conn key msg mid
    (Function.update w h r.1.Close, r.2)

/-- The method `RedisStorage.Get`. -/
def RedisStorage.Get (s : RedisStorage) (w : RedisWorld) (key : String) (mid : Int) :
    RedisWorld × Except GoError (List String) :=
  match s.getConn w key with
  | none => (w, Except.error GoError.RedisNoConnErr)
  | some (h, conn) =>
    let r := conn.Do (Cmd.ZRANGEBYSCORE key mid)
    match redisStrings r.2 with
    | Except.error err => (Function.update w h r.1.Close, Except.error err)
    | Except.ok reply => (Function.update w h r.1.Close, Except.ok reply)

/-- The first loop of `RedisStorage.DelMulti`: one ZREM sent per message. -/
def sendLoop (key : String) : List String → Conn → Conn × Option GoError
  | [], c => (c, none)
  | msg :: rest, c =>
    let r := c.Send (Cmd.ZREM key msg)
    match r.2 with
    | some err => (r.1, some err)
    | none => sendLoop key rest r.1

/-- The second loop of `RedisStorage.DelMulti`: one reply read per message. -/
def receiveLoop : List String → Conn → Conn × Option GoError
  | [], c => (c, none)
  | _ :: rest, c =>
    let r := c.Receive
    match r.2 with
    | Except.error err => (r.1, some err)
    | Except.ok _ => receiveLoop rest r.1

/-- The body of `RedisStorage.DelMulti` between taking and closing the connection. -/
def delMultiBody (conn : Conn) (info : DelMessageInfo) : Conn × Option GoError :=
  let r1 := sendLoop info.Key info.Msgs conn
  match r1.2 with
  | some err => (r1.1, some err)
  | none =>
    let r2 := r1.1.Flush
    match r2.2 with
    | some err => (r2.1, some err)
    | none => receiveLoop info.Msgs r2.1

/-- The method `RedisStorage.DelMulti`. -/
def RedisStorage.DelMulti (s : RedisStorage) (w : RedisWorld) (info : DelMessageInfo) :
    RedisWorld × Option GoError :=
  match s.getConn w info.Key with
  | none => (w, some GoError.RedisNoConnErr)
  | some (h, conn) =>
    let r := delMultiBody conn info
    (Function.update w h r.1.Close, r.2)

/-- The method `RedisStorage.DelKey`. -/
def RedisStorage.DelKey (s : RedisStorage) (w : RedisWorld) (key : String) :
    RedisWorld × Option GoError :=
  match s.getConn w key with
  | none => (w, some GoError.RedisNoConnErr)
  | some (h, conn) =>
    let r := conn.Do (Cmd.DEL key)
    match r.2 with
    | Except.error err => (Function.update w h r.1.Close, some err)
    | Except.ok _ => (Function.update w h r.1.Close, none)

/-! ## Example states -/

/-- A healthy database node holding the given rows. -/
def healthyDB (rows : List Row) : DB := ⟨rows, [], fun _ => none⟩

/-- A database node whose every statement fails. -/
def brokenDB (rows : List Row) : DB := ⟨rows, [], fun _ => some "bad connection"⟩

/-- A row as `saveSQL` writes it. -/
def savedRow (sub : String) (mid expire : Int) (msg : String) (now : Int) : Row :=
  { key := none, sub := sub, gid := 0, mid := mid, expire := expire, msg := some msg,
    ctime := now, mtime := now }

/-- Two healthy nodes, each holding one expired and one live row at instant 100. -/
def sweepWorld : MYSQLWorld := fun h =>
  if h = 0 then healthyDB [savedRow "a" 1 50 "old-a" 10, savedRow "a" 2 150 "new-a" 20]
  else healthyDB [savedRow "b" 1 100 "old-b" 10, savedRow "b" 2 101 "new-b" 20]

/-- A broken first node and a healthy second node holding an expired row. -/
def halfBrokenWorld : MYSQLWorld := fun h =>
  if h = 0 then brokenDB [] else healthyDB [savedRow "b" 1 50 "old-b" 10]

/-- A two-node durable backend. -/
def twoNodeMYSQL : MYSQLStorage := ⟨[("node1", 0), ("node2", 1)], fun _ => "node1"⟩

/-- A healthy cache node with an empty keyspace. -/
def healthyNode : RedisNode := ⟨fun _ => [], [], fun _ => none⟩

/-- A one-node cache backend. -/
def oneNodeRedis : RedisStorage := ⟨[("node1", 0)], fun _ => "node1"⟩

/-- A codec for the examples: the payload itself. -/
def payloadOf (m : Message) : String := m.Msg

/-- The cache after Save(k, m1, 1), Save(k, m2, 2) with MaxStore = 2. -/
def cacheAfterTwo : RedisWorld :=
  (oneNodeRedis.Save payloadOf 2
    (oneNodeRedis.Save payloadOf 2 (fun _ => healthyNode) "k" ⟨"m1", 0⟩ 1).1 "k" ⟨"m2", 0⟩ 2).1

/-- The cache after Save(k, m1, 5), Save(k, m2, 10) with MaxStore = 2. -/
def cacheFiveTen : RedisWorld :=
  (oneNodeRedis.Save payloadOf 2
    (oneNodeRedis.Save payloadOf 2 (fun _ => healthyNode) "k" ⟨"m1", 0⟩ 5).1 "k" ⟨"m2", 0⟩ 10).1

/-- The cache after Save(k, m2, 10) with MaxStore = 1. -/
def cacheTen : RedisWorld :=
  (oneNodeRedis.Save payloadOf 1 (fun _ => healthyNode) "k" ⟨"m2", 0⟩ 10).1

/-- A healthy cache node holding under k one member whose score, 2^53 + 4, lies
above the range in which every integer is a double. -/
def bigScoreWorld : RedisWorld := fun _ =>
  ⟨fun k => if k = "k" then [(2 ^ 53 + 4, "a-old")] else [], [], fun _ => none⟩

/-- A deletion request naming two of the three members saved under k. -/
def ackTwo : DelMessageInfo := { Key := "k", Msgs := ["m1", "m3"] }

/-- The cache after Save(k, m1, 1), Save(k, m2, 2), Save(k, m3, 3) with MaxStore = 5,
and an unrelated set under key j. -/
def cacheThree : RedisWorld :=
  (oneNodeRedis.Save payloadOf 5
    (oneNodeRedis.Save payloadOf 5
      (oneNodeRedis.Save payloadOf 5
        (oneNodeRedis.Save payloadOf 5 (fun _ => healthyNode) "j" ⟨"x", 0⟩ 9).1
        "k" ⟨"m1", 0⟩ 1).1 "k" ⟨"m2", 0⟩ 2).1 "k" ⟨"m3", 0⟩ 3).1

/-! ## Helper lemmas -/

theorem lookup_eq_none_of_not_mem_keys {β : Type} (l : List (String × β)) (k : String)
    (h : k ∉ l.map Prod.fst) : l.lookup k = none := by
  induction l with
  | nil => rfl
  | cons p rest ih =>
    obtain ⟨a, b⟩ := p
    simp only [List.map_cons, List.mem_cons, not_or] at h
    have hne : (k == a) = false := by simpa using h.1
    simp [List.lookup, hne, ih h.2]

theorem mysql_getConn_eq_none (s : MYSQLStorage) (key : String)
    (h : (if s.Pool.length > 1 then s.Ketama key else defaultMYSQLNode) ∉ s.Pool.map Prod.fst) :
    s.getConn key = none := by
  unfold MYSQLStorage.getConn
  simp only [lookup_eq_none_of_not_mem_keys _ _ h]

theorem redis_getConn_eq_none (s : RedisStorage) (w : RedisWorld) (key : String)
    (h : (if s.Pool.length > 1 then s.Ketama key else defaultRedisNode) ∉ s.Pool.map Prod.fst) :
    s.getConn w key = none := by
  unfold RedisStorage.getConn
  simp only [lookup_eq_none_of_not_mem_keys _ _ h]

theorem DB.Exec_error_ne (db : DB) (q : Stmt) (e : GoError) (h : (db.Exec q).2 = some e) :
    e ≠ GoError.MYSQLNoDBErr := by
  unfold DB.Exec at h
  split at h <;> simp at h
  subst h; simp

theorem DB.Query_error_ne (db : DB) (q : Stmt) (e : GoError)
    (h : (db.Query q).2 = Except.error e) : e ≠ GoError.MYSQLNoDBErr := by
  unfold DB.Query at h
  split at h <;> simp at h
  subst h; simp

theorem scanRows_error_ne (rows : List Row) (acc : List String) (e : GoError)
    (h : scanRows rows acc = Except.error e) : e ≠ GoError.MYSQLNoDBErr := by
  induction rows generalizing acc with
  | nil => simp [scanRows] at h
  | cons r rest ih =>
    unfold scanRows at h
    split at h
    · simp at h; subst h; simp
    · exact ih _ h

theorem Conn.Send_error_ne (c : Conn) (cmd : Cmd) (e : GoError) (h : (c.Send cmd).2 = some e) :
    e ≠ GoError.RedisNoConnErr := by
  unfold Conn.Send at h
  split at h <;> simp at h
  subst h; simp

theorem Conn.Flush_error_ne (c : Conn) (e : GoError) (h : c.Flush.2 = some e) :
    e ≠ GoError.RedisNoConnErr := by
  unfold Conn.Flush at h
  split at h <;> simp at h
  subst h; simp

theorem Conn.Receive_error_ne (c : Conn) (e : GoError) (h : c.Receive.2 = Except.error e) :
    e ≠ GoError.RedisNoConnErr := by
  unfold Conn.Receive at h
  split at h
  · simp at h; subst h; simp
  · split at h <;> simp at h
    subst h; simp

theorem Conn.Do_error_ne (c : Conn) (cmd : Cmd) (e : GoError)
    (h : (c.Do cmd).2 = Except.error e) : e ≠ GoError.RedisNoConnErr := by
  unfold Conn.Do at h
  split at h <;> simp at h
  subst h; simp

theorem redisStrings_error_ne (r : Except GoError Reply) (e : GoError)
    (hr : ∀ e1, r = Except.error e1 → e1 ≠ GoError.RedisNoConnErr)
    (h : redisStrings r = Except.error e) : e ≠ GoError.RedisNoConnErr := by
  unfold redisStrings at h
  split at h
  · simp at h; subst h; exact hr _ rfl
  · simp at h
  · simp at h; subst h; simp

theorem saveBody_error_ne (json : Message → String) (maxStore : Int) (conn : Conn)
    (key : String) (msg : Message) (mid : Int) (e : GoError)
    (h : (saveBody json maxStore conn key msg mid).2 = some e) :
    e ≠ GoError.RedisNoConnErr := by
  unfold saveBody at h
  simp only at h
  split at h
  · rename_i err h1; simp at h; subst h; exact Conn.Send_error_ne _ _ _ h1
  · split at h
    · rename_i err h1; simp at h; subst h; exact Conn.Send_error_ne _ _ _ h1
    · split at h
      · rename_i err h1; simp at h; subst h; exact Conn.Flush_error_ne _ _ h1
      · split at h
        · rename_i err h1; simp at h; subst h; exact Conn.Receive_error_ne _ _ h1
        · split at h
          · rename_i err h1; simp at h; subst h; exact Conn.Receive_error_ne _ _ h1
          · simp at h

theorem sendLoop_error_ne (key : String) (msgs : List String) (c : Conn) (e : GoError)
    (h : (sendLoop key msgs c).2 = some e) : e ≠ GoError.RedisNoConnErr := by
  induction msgs generalizing c with
  | nil => simp [sendLoop] at h
  | cons m rest ih =>
    unfold sendLoop at h
    simp only at h
    split at h
    · rename_i err h1; simp at h; subst h; exact Conn.Send_error_ne _ _ _ h1
    · exact ih _ h

theorem receiveLoop_error_ne (msgs : List String) (c : Conn) (e : GoError)
    (h : (receiveLoop msgs c).2 = some e) : e ≠ GoError.RedisNoConnErr := by
  induction msgs generalizing c with
  | nil => simp [receiveLoop] at h
  | cons m rest ih =>
    unfold receiveLoop at h
    simp only at h
    split at h
    · rename_i err h1; simp at h; subst h; exact Conn.Receive_error_ne _ _ h1
    · exact ih _ h

theorem delMultiBody_error_ne (conn : Conn) (info : DelMessageInfo) (e : GoError)
    (h : (delMultiBody conn info).2 = some e) : e ≠ GoError.RedisNoConnErr := by
  unfold delMultiBody at h
  simp only at h
  split at h
  · rename_i err h1; simp at h; subst h; exact sendLoop_error_ne _ _ _ _ h1
  · split at h
    · rename_i err h1; simp at h; subst h; exact Conn.Flush_error_ne _ _ h1
    · exact receiveLoop_error_ne _ _ _ h

/-! ## Routing -/

/-- C1: for both backends and every key, when the node name resolved for the key
(the default node when the pool has at most one entry, the ring's node otherwise)
is not a key of the pool map, Save and Get of the durable backend and Save, Get,
DelMulti and DelKey of the cache backend return the backend's no-connection
error, return no payloads, and leave every store, its request log included,
untouched. -/
theorem no_connection_when_node_absent (json : Message → String) (maxStore : Int)
    (ms : MYSQLStorage) (mw : MYSQLWorld) (rs : RedisStorage) (rw : RedisWorld)
    (now : Int) (key : String) (msg : Message) (mid : Int) (msgs : List String) :
    ((if ms.Pool.length > 1 then ms.Ketama key else defaultMYSQLNode) ∉ ms.Pool.map Prod.fst →
      ms.Save json mw now key msg mid = (mw, some GoError.MYSQLNoDBErr) ∧
      ms.Get mw now key mid = (mw, Except.error GoError.MYSQLNoDBErr)) ∧
    ((if rs.Pool.length > 1 then rs.Ketama key else defaultRedisNode) ∉ rs.Pool.map Prod.fst →
      rs.Save json maxStore rw key msg mid = (rw, some GoError.RedisNoConnErr) ∧
      rs.Get rw key mid = (rw, Except.error GoError.RedisNoConnErr) ∧
      rs.DelMulti rw { Key := key, Msgs := msgs } = (rw, some GoError.RedisNoConnErr) ∧
      rs.DelKey rw key = (rw, some GoError.RedisNoConnErr)) := by
  refine ⟨fun hm => ?_, fun hr => ?_⟩
  · have h := mysql_getConn_eq_none ms key hm
    simp [MYSQLStorage.Save, MYSQLStorage.Get, h]
  · have h := redis_getConn_eq_none rs rw key hr
    simp [RedisStorage.Save, RedisStorage.Get, RedisStorage.DelMulti, RedisStorage.DelKey, h]

/-- Witness of C1: a two-node pool whose ring names a third node, for both backends. -/
theorem no_connection_when_node_absent_witness :
    (MYSQLStorage.Save (fun m => m.Msg) ⟨[("node1", 0), ("node2", 1)], fun _ => "node3"⟩
        (fun _ => ⟨[], [], fun _ => none⟩) 7 "k" ⟨"hello", 9⟩ 5).2
      = some GoError.MYSQLNoDBErr ∧
    (RedisStorage.Get ⟨[("node1", 0), ("node2", 1)], fun _ => "node3"⟩
        (fun _ => ⟨fun _ => [], [], fun _ => none⟩) "k" 5).2
      = Except.error GoError.RedisNoConnErr := by
  have h := no_connection_when_node_absent (fun m => m.Msg) 2
    ⟨[("node1", 0), ("node2", 1)], fun _ => "node3"⟩ (fun _ => ⟨[], [], fun _ => none⟩)
    ⟨[("node1", 0), ("node2", 1)], fun _ => "node3"⟩ (fun _ => ⟨fun _ => [], [], fun _ => none⟩)
    7 "k" ⟨"hello", 9⟩ 5 []
  refine ⟨?_, ?_⟩
  · rw [(h.1 (by decide)).1]
  · rw [(h.2 (by decide)).2.1]

/-- Counterexample to C2: a pool holding the single node "nodeA" is not reached;
getConn of both backends finds no node and Save fails with the no-connection error. -/
theorem single_node_other_name_unreachable :
    (MYSQLStorage.mk [("nodeA", 0)] (fun _ => "nodeA")).getConn "k" = none ∧
    (MYSQLStorage.Save (fun m => m.Msg) ⟨[("nodeA", 0)], fun _ => "nodeA"⟩
        (fun _ => ⟨[], [], fun _ => none⟩) 7 "k" ⟨"hello", 9⟩ 5).2
      = some GoError.MYSQLNoDBErr ∧
    ((RedisStorage.mk [("nodeA", 0)] (fun _ => "nodeA")).getConn
        (fun _ => ⟨fun _ => [], [], fun _ => none⟩) "k").isNone = true ∧
    (RedisStorage.Save (fun m => m.Msg) 2 ⟨[("nodeA", 0)], fun _ => "nodeA"⟩
        (fun _ => ⟨fun _ => [], [], fun _ => none⟩) "k" ⟨"hello", 9⟩ 5).2
      = some GoError.RedisNoConnErr := by
  refine ⟨by decide, by decide, by decide, by decide⟩

/-- C2 (amended): when the pool map holds exactly one node and that node is named
"node1", getConn of either backend yields that node for every key and every
ring, and no connection-taking operation fails with the no-connection error. -/
theorem single_default_node_always_resolved (json : Message → String) (maxStore : Int)
    (h : Nat) (ketama : String → String) (mw : MYSQLWorld) (rw : RedisWorld)
    (now : Int) (key : String) (msg : Message) (mid : Int) (info : DelMessageInfo) :
    (MYSQLStorage.mk [("node1", h)] ketama).getConn key = some h ∧
    (RedisStorage.mk [("node1", h)] ketama).getConn rw key
      = some (h, { node := rw h, out := [], pending := [] }) ∧
    ((MYSQLStorage.mk [("node1", h)] ketama).Save json mw now key msg mid).2
      ≠ some GoError.MYSQLNoDBErr ∧
    ((MYSQLStorage.mk [("node1", h)] ketama).Get mw now key mid).2
      ≠ Except.error GoError.MYSQLNoDBErr ∧
    ((RedisStorage.mk [("node1", h)] ketama).Save json maxStore rw key msg mid).2
      ≠ some GoError.RedisNoConnErr ∧
    ((RedisStorage.mk [("node1", h)] ketama).Get rw key mid).2
      ≠ Except.error GoError.RedisNoConnErr ∧
    ((RedisStorage.mk [("node1", h)] ketama).DelMulti rw info).2
      ≠ some GoError.RedisNoConnErr ∧
    ((RedisStorage.mk [("node1", h)] ketama).DelKey rw key).2
      ≠ some GoError.RedisNoConnErr := by
  have hm : (MYSQLStorage.mk [("node1", h)] ketama).getConn key = some h := by
    simp [MYSQLStorage.getConn, defaultMYSQLNode, List.lookup]
  have hr : (RedisStorage.mk [("node1", h)] ketama).getConn rw key
      = some (h, { node := rw h, out := [], pending := [] }) := by
    simp [RedisStorage.getConn, defaultRedisNode, List.lookup]
  refine ⟨hm, hr, ?_, ?_, ?_, ?_, ?_, ?_⟩
  · intro hc
    unfold MYSQLStorage.Save at hc
    rw [hm] at hc
    simp only at hc
    split at hc
    · rename_i err h1; simp at hc; subst hc; exact DB.Exec_error_ne _ _ _ h1 rfl
    · simp at hc
  · intro hc
    unfold MYSQLStorage.Get at hc
    rw [hm] at hc
    simp only at hc
    split at hc
    · rename_i err h1; simp at hc; subst hc; exact DB.Query_error_ne _ _ _ h1 rfl
    · exact scanRows_error_ne _ _ _ hc rfl
  · intro hc
    unfold RedisStorage.Save at hc
    rw [hr] at hc
    exact saveBody_error_ne _ _ _ _ _ _ _ hc rfl
  · intro hc
    unfold RedisStorage.Get at hc
    rw [hr] at hc
    simp only at hc
    split at hc
    · rename_i err h1; simp at hc; subst hc
      exact redisStrings_error_ne _ _ (fun e1 he1 => Conn.Do_error_ne _ _ _ he1) h1 rfl
    · simp at hc
  · intro hc
    unfold RedisStorage.DelMulti at hc
    rw [show (RedisStorage.mk [("node1", h)] ketama).getConn rw info.Key
      = some (h, { node := rw h, out := [], pending := [] }) by
        simp [RedisStorage.getConn, defaultRedisNode, List.lookup]] at hc
    exact delMultiBody_error_ne _ _ _ hc rfl
  · intro hc
    unfold RedisStorage.DelKey at hc
    rw [hr] at hc
    simp only at hc
    split at hc
    · rename_i err h1; simp at hc; subst hc; exact Conn.Do_error_ne _ _ _ h1 rfl
    · simp at hc

/-! ## Durable backend -/

theorem DB.Exec_ok (db : DB) (q : Stmt) (h : (db.Exec q).2 = none) :
    (db.Exec q).1.rows = q.effect db.rows ∧ (db.Exec q).1.log = db.log ++ [q] := by
  unfold DB.Exec at h ⊢
  split at h <;> simp at h
  rename_i h1
  simp [h1]

theorem delAllExpiredLoop_rows (now : Int) (pool : List (String × Nat)) (w w1 : MYSQLWorld)
    (h : delAllExpiredLoop now pool w = (w1, none)) (n : Nat) :
    (w1 n).rows = if n ∈ pool.map Prod.snd
      then (w n).rows.filter (fun r => !decide (r.expire ≤ now)) else (w n).rows := by
  induction pool generalizing w with
  | nil =>
    simp only [delAllExpiredLoop, Prod.mk.injEq, and_true] at h
    subst h; simp
  | cons p rest ih =>
    obtain ⟨name, h0⟩ := p
    unfold delAllExpiredLoop at h
    simp only at h
    split at h
    · simp at h
    · rename_i hex
      have hrows := (DB.Exec_ok _ _ hex).1
      rw [ih _ h]
      by_cases hn : n = h0
      · subst hn
        simp [Function.update_same, hrows, Stmt.effect, List.filter_filter]
      · rw [Function.update_noteq hn]
        simp only [List.map_cons]
        by_cases hr : n ∈ rest.map Prod.snd
        · rw [if_pos hr, if_pos (List.mem_cons_of_mem _ hr)]
        · rw [if_neg hr, if_neg (fun hc => (List.mem_cons.1 hc).elim hn hr)]

theorem scanRows_mem (rows : List Row) (acc msgs : List String)
    (h : scanRows rows acc = Except.ok msgs) (m : String) (hm : m ∈ msgs) :
    m ∈ acc ∨ ∃ r ∈ rows, r.msg = some m := by
  induction rows generalizing acc with
  | nil =>
    simp only [scanRows, Except.ok.injEq] at h
    subst h; exact Or.inl hm
  | cons r rest ih =>
    unfold scanRows at h
    split at h
    · simp at h
    · rename_i m1 hr
      rcases ih _ h with h1 | ⟨r1, hr1, hr2⟩
      · rcases List.mem_append.1 h1 with h2 | h2
        · exact Or.inl h2
        · simp only [List.mem_singleton] at h2
          subst h2
          exact Or.inr ⟨r, List.mem_cons_self _ _, hr⟩
      · exact Or.inr ⟨r1, List.mem_cons_of_mem _ hr1, hr2⟩

/-- C3: for every state of the durable backend, every deletion request and every
key, DelMulti and DelKey return no error and leave the whole world of nodes
as it was, so a Get issued afterwards at the same instant returns exactly what
it returns before the call. -/
theorem mysql_deletes_are_noops (s : MYSQLStorage) (w : MYSQLWorld) (info : DelMessageInfo)
    (key : String) :
    s.DelMulti w info = (w, none) ∧ s.DelKey w key = (w, none) ∧
    ∀ (k : String) (mid now : Int),
      s.Get (s.DelMulti w info).1 now k mid = s.Get w now k mid ∧
      s.Get (s.DelKey w key).1 now k mid = s.Get w now k mid := by
  refine ⟨rfl, rfl, fun k mid now => ⟨rfl, rfl⟩⟩

/-- C4 (the code at the failing input): with a two-node pool whose first node
fails, DelAllExpired returns that error at once; the second node receives no
statement and keeps its expired row. -/
theorem delAllExpired_stops_at_first_failure :
    (twoNodeMYSQL.DelAllExpired halfBrokenWorld 100).2
      = some (GoError.driver "bad connection") ∧
    ((twoNodeMYSQL.DelAllExpired halfBrokenWorld 100).1 1).log = [] ∧
    ((twoNodeMYSQL.DelAllExpired halfBrokenWorld 100).1 1).rows
      = [savedRow "b" 1 50 "old-b" 10] := by
  refine ⟨by decide, by decide, by decide⟩

/-- C7 (the code at the failing input): on a healthy single node with an empty
table, Save of any message under any key and sequence id succeeds, and a Get on
the same key returns no payload at all, for every watermark and instant: the
inserted row carries the key in column sub, and the query filters on column key. -/
theorem mysql_save_then_get_misses_row (json : Message → String) (ketama : String → String)
    (key : String) (m : Message) (mid wm now later : Int) :
    ((MYSQLStorage.mk [("node1", 0)] ketama).Save json (fun _ => healthyDB []) now key m mid).2
      = none ∧
    (((MYSQLStorage.mk [("node1", 0)] ketama).Save json (fun _ => healthyDB []) now key m mid).1
        0).rows = [savedRow key mid m.Expire (json m) now] ∧
    ((MYSQLStorage.mk [("node1", 0)] ketama).Get
        ((MYSQLStorage.mk [("node1", 0)] ketama).Save json (fun _ => healthyDB []) now key m
          mid).1 later key wm).2 = Except.ok [] := by
  have hm : ∀ k, (MYSQLStorage.mk [("node1", 0)] ketama).getConn k = some 0 := by
    intro k; simp [MYSQLStorage.getConn, defaultMYSQLNode, List.lookup]
  simp [MYSQLStorage.Save, MYSQLStorage.Get, hm, DB.Exec, DB.Query, healthyDB, Stmt.effect,
    Stmt.result, savedRow, scanRows]

/-- C8: when DelAllExpired succeeds at instant now, every node of the pool holds
exactly its former rows with expire > now: each row with expire <= now is gone
and each row with expire > now is kept. Consequently a row that was expired at
the sweep is selected by no later query of Get on that node, and every payload a
later successful Get returns comes from a row that was unexpired at the sweep. -/
theorem delAllExpired_removes_exactly_expired (s : MYSQLStorage) (w w1 : MYSQLWorld)
    (now : Int) (name : String) (h : Nat)
    (hok : s.DelAllExpired w now = (w1, none)) (hmem : (name, h) ∈ s.Pool) :
    (w1 h).rows = (w h).rows.filter (fun r => decide (r.expire > now)) ∧
    (∀ r, r ∈ (w1 h).rows ↔ r ∈ (w h).rows ∧ r.expire > now) ∧
    (∀ r, r.expire ≤ now → ∀ (key : String) (mid later : Int),
      r ∉ (Stmt.getSQL key mid later).result (w1 h).rows) ∧
    (∀ (key : String) (mid later : Int) (msgs : List String),
      s.getConn key = some h → (s.Get w1 later key mid).2 = Except.ok msgs →
      ∀ m ∈ msgs, ∃ r ∈ (w h).rows, r.expire > now ∧ r.msg = some m) := by
  have hrows : (w1 h).rows = (w h).rows.filter (fun r => decide (r.expire > now)) := by
    have h1 := delAllExpiredLoop_rows now s.Pool w w1 hok h
    have h2 : h ∈ s.Pool.map Prod.snd := List.mem_map.2 ⟨(name, h), hmem, rfl⟩
    rw [if_pos h2] at h1
    rw [h1]
    congr 1
    funext r
    by_cases hle : r.expire ≤ now
    · simp [hle]
    · simp [hle, lt_of_not_ge hle]
  have hiff : ∀ r, r ∈ (w1 h).rows ↔ r ∈ (w h).rows ∧ r.expire > now := by
    intro r
    rw [hrows]
    simp [List.mem_filter]
  refine ⟨hrows, hiff, ?_, ?_⟩
  · intro r hr key mid later hin
    simp only [Stmt.result, List.mem_filter] at hin
    have := (hiff r).1 hin.1
    omega
  · intro key mid later msgs hconn hget m hm
    unfold MYSQLStorage.Get at hget
    rw [hconn] at hget
    simp only at hget
    split at hget
    · simp at hget
    · rename_i rows hq
      unfold DB.Query at hq
      split at hq
      · simp at hq
      · simp only [Except.ok.injEq] at hq
        rcases scanRows_mem _ _ _ hget m hm with h1 | ⟨r, hr, hr2⟩
        · simp at h1
        · rw [← hq] at hr
          simp only [Stmt.result, List.mem_filter] at hr
          have := (hiff r).1 hr.1
          exact ⟨r, this.1, this.2, hr2⟩

/-- Witness of C8: the sweep at instant 100 over two healthy nodes leaves node 2
with its live row only. -/
theorem delAllExpired_removes_exactly_expired_witness :
    ((twoNodeMYSQL.DelAllExpired sweepWorld 100).1 1).rows
      = [savedRow "b" 2 101 "new-b" 20] := by
  have h := (delAllExpired_removes_exactly_expired twoNodeMYSQL sweepWorld
    (twoNodeMYSQL.DelAllExpired sweepWorld 100).1 100 "node2" 1
    (Prod.ext rfl (by decide)) (by decide)).1
  rw [h]
  decide

/-! ## Cache backend -/

theorem charsLe_total (x y : List Char) : charsLe x y = true ∨ charsLe y x = true := by
  induction x generalizing y with
  | nil => simp [charsLe]
  | cons a as ih =>
    cases y with
    | nil => simp [charsLe]
    | cons b bs =>
      simp only [charsLe, Bool.or_eq_true, Bool.and_eq_true, decide_eq_true_eq]
      rcases lt_trichotomy a.toNat b.toNat with h | h | h
      · exact Or.inl (Or.inl h)
      · rcases ih bs with h2 | h2
        · exact Or.inl (Or.inr ⟨h, h2⟩)
        · exact Or.inr (Or.inr ⟨h.symm, h2⟩)
      · exact Or.inr (Or.inl h)

theorem charsLe_trans (x y z : List Char) (h1 : charsLe x y = true) (h2 : charsLe y z = true) :
    charsLe x z = true := by
  induction x generalizing y z with
  | nil => simp [charsLe]
  | cons a as ih =>
    cases y with
    | nil => simp [charsLe] at h1
    | cons b bs =>
      cases z with
      | nil => simp [charsLe] at h2
      | cons c cs =>
        simp only [charsLe, Bool.or_eq_true, Bool.and_eq_true, decide_eq_true_eq] at h1 h2 ⊢
        rcases h1 with h1 | ⟨h1, h1a⟩ <;> rcases h2 with h2 | ⟨h2, h2a⟩
        · exact Or.inl (lt_trans h1 h2)
        · exact Or.inl (h2 ▸ h1)
        · exact Or.inl (h1 ▸ h2)
        · exact Or.inr ⟨h1.trans h2, ih _ _ h1a h2a⟩

theorem zle_isTotal : IsTotal (Int × String) zle where
  total a b := by
    unfold zle
    rcases lt_trichotomy a.1 b.1 with h | h | h
    · exact Or.inl (Or.inl h)
    · rcases charsLe_total a.2.data b.2.data with h2 | h2
      · exact Or.inl (Or.inr ⟨h, h2⟩)
      · exact Or.inr (Or.inr ⟨h.symm, h2⟩)
    · exact Or.inr (Or.inl h)

theorem zle_isTrans : IsTrans (Int × String) zle where
  trans a b c h1 h2 := by
    unfold zle at *
    rcases h1 with h1 | ⟨h1, h1a⟩ <;> rcases h2 with h2 | ⟨h2, h2a⟩
    · exact Or.inl (lt_trans h1 h2)
    · exact Or.inl (h2 ▸ h1)
    · exact Or.inl (h1 ▸ h2)
    · exact Or.inr ⟨h1.trans h2, charsLe_trans _ _ _ h1a h2a⟩

theorem zle_score_le (a b : Int × String) (h : zle a b) : a.1 ≤ b.1 := by
  rcases h with h | ⟨h, _⟩
  · exact le_of_lt h
  · exact le_of_eq h

theorem wrap64_trim (m : Int) (h0 : 0 ≤ m) (h1 : m < 2 ^ 63) :
    wrap64 (-1 * wrap64 (m + 1)) = -(m + 1) := by
  unfold wrap64
  omega

theorem zremrangebyrank_trim (z : ZSet) (m : Int) (h0 : 0 ≤ m) :
    zremrangebyrank z 0 (-(m + 1)) = z.drop (z.length - m.toNat) := by
  unfold zremrangebyrank
  simp only [lt_self_iff_false, if_false]
  have hneg : -(m + 1) < 0 := by omega
  simp only [hneg, if_true]
  split
  · rename_i hc
    have : z.length - m.toNat = 0 := by omega
    rw [this, List.drop_zero]
  · rename_i hc
    have h2 : ¬ ((z.length : Int) + -(m + 1) ≥ (z.length : Int)) := by omega
    simp only [h2, if_false, Int.toNat_zero, List.take_zero, List.nil_append]
    congr 1
    omega

theorem zadd_sorted (z : ZSet) (score : Int) (member : String) (h : z.Sorted zle) :
    (zadd z score member).Sorted zle := by
  haveI := zle_isTotal
  haveI := zle_isTrans
  exact List.Sorted.orderedInsert _ _ (List.Sorted.filter _ h)

theorem saveBody_ok (json : Message → String) (maxStore : Int) (conn : Conn) (key : String)
    (msg : Message) (mid : Int) (hout : conn.out = []) (hpend : conn.pending = [])
    (h : (saveBody json maxStore conn key msg mid).2 = none) :
    (saveBody json maxStore conn key msg mid).1.node.data
      = (execAll [Cmd.ZADD key mid (json msg),
          Cmd.ZREMRANGEBYRANK key 0 (wrap64 (-1 * wrap64 (maxStore + 1)))] conn.node.data).1 ∧
    (saveBody json maxStore conn key msg mid).1.node.log
      = conn.node.log ++ [ConnOp.Send (Cmd.ZADD key mid (json msg)),
          ConnOp.Send (Cmd.ZREMRANGEBYRANK key 0 (wrap64 (-1 * wrap64 (maxStore + 1)))),
          ConnOp.Flush, ConnOp.Receive, ConnOp.Receive] := by
  cases hf0 : conn.node.faults conn.node.log.length with
  | some e => simp [saveBody, Conn.Send, hf0] at h
  | none =>
    cases hf1 : conn.node.faults (conn.node.log.length + 1) with
    | some e => simp [saveBody, Conn.Send, hf0, hf1] at h
    | none =>
      cases hf2 : conn.node.faults (conn.node.log.length + 1 + 1) with
      | some e => simp [saveBody, Conn.Send, Conn.Flush, hf0, hf1, hf2] at h
      | none =>
        cases hf3 : conn.node.faults (conn.node.log.length + 1 + 1 + 1) with
        | some e =>
          simp [saveBody, Conn.Send, Conn.Flush, Conn.Receive, hf0, hf1, hf2, hf3] at h
        | none =>
          cases hf4 : conn.node.faults (conn.node.log.length + 1 + 1 + 1 + 1) with
          | some e =>
            simp [saveBody, Conn.Send, Conn.Flush, Conn.Receive, hf0, hf1, hf2, hf3, hf4,
              hout, hpend, execAll] at h
          | none =>
            simp [saveBody, Conn.Send, Conn.Flush, Conn.Receive, hf0, hf1, hf2, hf3, hf4,
              hout, hpend, execAll]

theorem redis_getConn_some (s : RedisStorage) (w : RedisWorld) (key : String) (h : Nat)
    (c : Conn) (hconn : s.getConn w key = some (h, c)) :
    c = { node := w h, out := [], pending := [] } := by
  unfold RedisStorage.getConn at hconn
  simp only at hconn
  split at hconn
  · simp at hconn
  · simp only [Option.some.injEq, Prod.mk.injEq] at hconn
    obtain ⟨h1, h2⟩ := hconn
    subst h1
    exact h2.symm

theorem redis_save_ok (json : Message → String) (maxStore : Int) (s : RedisStorage)
    (w w1 : RedisWorld) (key : String) (msg : Message) (mid : Int) (h : Nat) (c : Conn)
    (hconn : s.getConn w key = some (h, c))
    (hok : s.Save json maxStore w key msg mid = (w1, none)) :
    (w1 h).data key = zremrangebyrank (zadd ((w h).data key) (round53 mid) (json msg)) 0
        (wrap64 (-1 * wrap64 (maxStore + 1))) ∧
    (∀ k, k ≠ key → (w1 h).data k = (w h).data k) ∧
    (∀ n, n ≠ h → w1 n = w n) ∧
    (w1 h).log = (w h).log ++ [ConnOp.Send (Cmd.ZADD key mid (json msg)),
      ConnOp.Send (Cmd.ZREMRANGEBYRANK key 0 (wrap64 (-1 * wrap64 (maxStore + 1)))),
      ConnOp.Flush, ConnOp.Receive, ConnOp.Receive, ConnOp.Close] := by
  have hc := redis_getConn_some s w key h c hconn
  subst hc
  unfold RedisStorage.Save at hok
  rw [hconn] at hok
  simp only [Prod.mk.injEq] at hok
  obtain ⟨hw, herr⟩ := hok
  have hb := saveBody_ok json maxStore _ key msg mid rfl rfl herr
  subst hw
  refine ⟨?_, ?_, ?_, ?_⟩
  · simp [Conn.Close, hb.1, execAll, Cmd.exec]
  · intro k hk
    simp [Conn.Close, hb.1, execAll, Cmd.exec, Function.update_noteq hk]
  · intro n hn
    simp [Function.update_noteq hn]
  · simp [Conn.Close, hb.2]

theorem redis_getConn_world (s : RedisStorage) (w w1 : RedisWorld) (key : String) (h : Nat)
    (c : Conn) (hconn : s.getConn w key = some (h, c)) :
    s.getConn w1 key = some (h, { node := w1 h, out := [], pending := [] }) := by
  unfold RedisStorage.getConn at hconn ⊢
  simp only at hconn ⊢
  split at hconn
  · simp at hconn
  · rename_i p hp
    simp only [Option.some.injEq, Prod.mk.injEq] at hconn
    simp [hconn.1]

theorem redis_get_ok (s : RedisStorage) (w w1 : RedisWorld) (key : String) (mid : Int)
    (h : Nat) (c : Conn) (reply : List String)
    (hconn : s.getConn w key = some (h, c))
    (hok : s.Get w key mid = (w1, Except.ok reply)) :
    reply = zrangebyscore ((w h).data key) (round53 mid) ∧ (w1 h).data = (w h).data ∧
    (∀ n, n ≠ h → w1 n = w n) ∧
    (w1 h).log = (w h).log ++ [ConnOp.Do (Cmd.ZRANGEBYSCORE key mid), ConnOp.Close] := by
  have hc := redis_getConn_some s w key h c hconn
  subst hc
  unfold RedisStorage.Get at hok
  rw [hconn] at hok
  cases hf : (w h).faults (w h).log.length with
  | some e => simp [Conn.Do, hf, redisStrings] at hok
  | none =>
    simp only [Conn.Do, hf, execAll, Cmd.exec, redisStrings, Prod.mk.injEq,
      Except.ok.injEq] at hok
    obtain ⟨hw, hr⟩ := hok
    subst hw
    refine ⟨hr.symm, ?_, ?_, ?_⟩
    · simp [Conn.Close]
    · intro n hn
      simp [Function.update_noteq hn]
    · simp [Conn.Close]

/-- C5: for every MaxStore within the range of a non-negative Go int, every key,
every sequence id and every prior state of the key's ordered set, after a
successful Save the key's set is the set as it stood after the add (the payload
entered under the score the server stores for the sequence id) with its lowest
ranks dropped down to MaxStore members: it holds at most MaxStore members, it is
the whole set when that had no more than MaxStore members, and, the prior set
being in rank order, every evicted member scores no higher than every member
kept. -/
theorem redis_save_keeps_highest (json : Message → String) (maxStore : Int)
    (s : RedisStorage) (w w1 : RedisWorld) (key : String) (msg : Message) (mid : Int)
    (h : Nat) (c : Conn) (hM0 : 0 ≤ maxStore) (hM : maxStore < 2 ^ 63)
    (_hmid : isInt64 mid)
    (hconn : s.getConn w key = some (h, c))
    (hok : s.Save json maxStore w key msg mid = (w1, none)) :
    (w1 h).data key = (zadd ((w h).data key) (round53 mid) (json msg)).drop
      ((zadd ((w h).data key) (round53 mid) (json msg)).length - maxStore.toNat) ∧
    (((w1 h).data key).length : Int) ≤ maxStore ∧
    ((zadd ((w h).data key) (round53 mid) (json msg)).length ≤ maxStore.toNat →
      (w1 h).data key = zadd ((w h).data key) (round53 mid) (json msg)) ∧
    (((w h).data key).Sorted zle →
      ∀ a ∈ (w1 h).data key, ∀ b ∈ zadd ((w h).data key) (round53 mid) (json msg),
        b ∉ (w1 h).data key → b.1 ≤ a.1) := by
  have hs := (redis_save_ok json maxStore s w w1 key msg mid h c hconn hok).1
  rw [wrap64_trim maxStore hM0 hM, zremrangebyrank_trim _ maxStore hM0] at hs
  refine ⟨hs, ?_, ?_, ?_⟩
  · rw [hs, List.length_drop]
    omega
  · intro hle
    rw [hs, Nat.sub_eq_zero_of_le hle, List.drop_zero]
  · intro hsorted a ha b hb hnb
    rw [hs] at ha hnb
    have hsa := zadd_sorted _ (round53 mid) (json msg) hsorted
    rw [← List.take_append_drop
      ((zadd ((w h).data key) (round53 mid) (json msg)).length - maxStore.toNat)
      (zadd ((w h).data key) (round53 mid) (json msg))] at hsa hb
    have hpw := (List.pairwise_append.1 hsa).2.2
    rcases List.mem_append.1 hb with hb1 | hb1
    · exact zle_score_le _ _ (hpw b hb1 a ha)
    · exact absurd hb1 hnb

/-- Witness of C5: with MaxStore = 2, after Save(k, m1, 1) and Save(k, m2, 2) the
third Save(k, m3, 3) leaves the set {m2, m3}, which is what Get(k, 0) returns. -/
theorem redis_save_keeps_highest_witness :
    ((oneNodeRedis.Save payloadOf 2 cacheAfterTwo "k" ⟨"m3", 0⟩ 3).1 0).data "k"
      = [(2, "m2"), (3, "m3")] ∧
    (oneNodeRedis.Get (oneNodeRedis.Save payloadOf 2 cacheAfterTwo "k" ⟨"m3", 0⟩ 3).1 "k" 0).2
      = Except.ok ["m2", "m3"] := by
  have h := (redis_save_keeps_highest payloadOf 2 oneNodeRedis cacheAfterTwo
    (oneNodeRedis.Save payloadOf 2 cacheAfterTwo "k" ⟨"m3", 0⟩ 3).1 "k" ⟨"m3", 0⟩ 3 0
    { node := cacheAfterTwo 0, out := [], pending := [] } (by decide) (by decide)
    (by decide) rfl (Prod.ext rfl rfl)).1
  refine ⟨?_, rfl⟩
  rw [h]
  decide

/-- Counterexample to C6: with a member stored under k at score 2^53 + 4, a
successful Get(k, 2^53 + 3) returns nothing although the member's score is
strictly greater than the watermark: the server reads the bound as 2^53 + 4. -/
theorem redis_get_rounds_watermark :
    (oneNodeRedis.Get bigScoreWorld "k" (2 ^ 53 + 3)).2 = Except.ok [] ∧
    ((2 ^ 53 + 4 : Int), "a-old") ∈ (bigScoreWorld 0).data "k" ∧
    (2 ^ 53 + 3 : Int) < 2 ^ 53 + 4 ∧ isInt64 (2 ^ 53 + 3) :=
  ⟨rfl, by decide, by decide, by decide⟩

/-- C6 (amended): for every key, every state of the key's ordered set and every
watermark that a double represents exactly (the watermark rounded to the nearest
double is the watermark), a successful Get returns exactly the members whose
score is strictly greater than the watermark, in rank order, with no upper bound
and with a member whose score equals the watermark excluded; the keyspace is
left as it was. -/
theorem redis_get_returns_above_watermark (s : RedisStorage) (w w1 : RedisWorld)
    (key : String) (mid : Int) (h : Nat) (c : Conn) (reply : List String)
    (_hmid : isInt64 mid) (hrep : round53 mid = mid)
    (hconn : s.getConn w key = some (h, c))
    (hok : s.Get w key mid = (w1, Except.ok reply)) :
    reply = (((w h).data key).filter (fun e => decide (e.1 > mid))).map Prod.snd ∧
    (∀ m, m ∈ reply ↔ ∃ score, (score, m) ∈ (w h).data key ∧ mid < score) ∧
    (∀ m, (mid, m) ∈ (w h).data key →
      (∀ score, (score, m) ∈ (w h).data key → score = mid) → m ∉ reply) ∧
    (w1 h).data = (w h).data := by
  have hg := redis_get_ok s w w1 key mid h c reply hconn hok
  rw [hrep] at hg
  have hmem : ∀ m, m ∈ reply ↔ ∃ score, (score, m) ∈ (w h).data key ∧ mid < score := by
    intro m
    rw [hg.1]
    simp [zrangebyscore, List.mem_map, List.mem_filter]
  refine ⟨hg.1, hmem, ?_, hg.2.1⟩
  intro m _ huniq hin
  obtain ⟨score, hs1, hs2⟩ := (hmem m).1 hin
  have := huniq score hs1
  omega

/-- Witness of C6: after Save(k, m1, 5) and Save(k, m2, 10) with MaxStore = 2,
Get(k, 7) returns only m2 and Get(k, 10) returns the empty sequence. -/
theorem redis_get_returns_above_watermark_witness :
    (oneNodeRedis.Get cacheFiveTen "k" 7).2 = Except.ok ["m2"] ∧
    (oneNodeRedis.Get cacheFiveTen "k" 10).2 = Except.ok [] ∧
    ["m2"] = (((cacheFiveTen 0).data "k").filter (fun e => decide (e.1 > 7))).map Prod.snd :=
  ⟨rfl, rfl, (redis_get_returns_above_watermark oneNodeRedis cacheFiveTen
    (oneNodeRedis.Get cacheFiveTen "k" 7).1 "k" 7 0
    { node := cacheFiveTen 0, out := [], pending := [] } ["m2"] (by decide) rfl rfl
    (Prod.ext rfl rfl)).1⟩

theorem sendLoop_ok (key : String) (msgs : List String) (c : Conn)
    (h : (sendLoop key msgs c).2 = none) :
    (sendLoop key msgs c).1.node.data = c.node.data ∧
    (sendLoop key msgs c).1.node.log
      = c.node.log ++ msgs.map (fun m => ConnOp.Send (Cmd.ZREM key m)) ∧
    (sendLoop key msgs c).1.out = c.out ++ msgs.map (fun m => Cmd.ZREM key m) ∧
    (sendLoop key msgs c).1.pending = c.pending := by
  induction msgs generalizing c with
  | nil => simp [sendLoop]
  | cons m rest ih =>
    cases hf : c.node.faults c.node.log.length with
    | some e => simp [sendLoop, Conn.Send, hf] at h
    | none =>
      simp only [sendLoop, Conn.Send, hf] at h ⊢
      obtain ⟨h1, h2, h3, h4⟩ := ih _ h
      simp [h1, h2, h3, h4]

theorem Conn.Flush_ok (c : Conn) (h : c.Flush.2 = none) :
    c.Flush.1.node.data = (execAll c.out c.node.data).1 ∧
    c.Flush.1.node.log = c.node.log ++ [ConnOp.Flush] ∧
    c.Flush.1.pending = c.pending ++ (execAll c.out c.node.data).2 := by
  cases hf : c.node.faults c.node.log.length with
  | some e => simp [Conn.Flush, hf] at h
  | none => simp [Conn.Flush, hf]

theorem receiveLoop_ok (msgs : List String) (c : Conn) (h : (receiveLoop msgs c).2 = none) :
    (receiveLoop msgs c).1.node.data = c.node.data ∧
    (receiveLoop msgs c).1.node.log
      = c.node.log ++ List.replicate msgs.length ConnOp.Receive := by
  induction msgs generalizing c with
  | nil => simp [receiveLoop]
  | cons m rest ih =>
    cases hf : c.node.faults c.node.log.length with
    | some e => simp [receiveLoop, Conn.Receive, hf] at h
    | none =>
      cases hp : c.pending with
      | nil => simp [receiveLoop, Conn.Receive, hf, hp] at h
      | cons r rs =>
        simp only [receiveLoop, Conn.Receive, hf, hp] at h ⊢
        obtain ⟨h1, h2⟩ := ih _ h
        simp [h1, h2, List.replicate_succ]

theorem execAll_zrem (key : String) (msgs : List String) (d : Store) :
    (execAll (msgs.map (fun m => Cmd.ZREM key m)) d).1
      = Function.update d key ((d key).filter (fun e => decide (e.2 ∉ msgs))) := by
  induction msgs generalizing d with
  | nil => simp [execAll]
  | cons m rest ih =>
    simp only [List.map_cons, execAll, Cmd.exec]
    rw [ih]
    simp only [Function.update_same, Function.update_idem, zrem, List.filter_filter]
    have hf : (d key).filter (fun a => decide (a.2 ∉ rest) && a.2 != m)
        = (d key).filter (fun e => decide (e.2 ∉ m :: rest)) := by
      apply List.filter_congr
      intro e _
      by_cases h1 : e.2 = m <;> by_cases h2 : e.2 ∈ rest <;> simp [h1, h2]
    rw [hf]

theorem delMultiBody_ok (conn : Conn) (info : DelMessageInfo) (hout : conn.out = [])
    (h : (delMultiBody conn info).2 = none) :
    (delMultiBody conn info).1.node.data
      = Function.update conn.node.data info.Key
          ((conn.node.data info.Key).filter (fun e => decide (e.2 ∉ info.Msgs))) ∧
    (delMultiBody conn info).1.node.log
      = conn.node.log ++ info.Msgs.map (fun m => ConnOp.Send (Cmd.ZREM info.Key m))
          ++ [ConnOp.Flush] ++ List.replicate info.Msgs.length ConnOp.Receive := by
  unfold delMultiBody at h ⊢
  simp only at h ⊢
  cases h1 : (sendLoop info.Key info.Msgs conn).2 with
  | some e => simp [h1] at h
  | none =>
    simp only [h1] at h ⊢
    obtain ⟨s1, s2, s3, _⟩ := sendLoop_ok _ _ _ h1
    cases h2 : (sendLoop info.Key info.Msgs conn).1.Flush.2 with
    | some e => simp [h2] at h
    | none =>
      simp only [h2] at h ⊢
      obtain ⟨f1, f2, _⟩ := Conn.Flush_ok _ h2
      obtain ⟨r1, r2⟩ := receiveLoop_ok _ _ h
      rw [r1, r2, f1, f2, s1, s2, s3, hout, List.nil_append, execAll_zrem]
      simp

theorem sendLoop_log (key : String) (msgs : List String) (c : Conn) :
    ∃ k, k ≤ msgs.length ∧ (sendLoop key msgs c).1.node.log
      = c.node.log ++ (msgs.map (fun m => ConnOp.Send (Cmd.ZREM key m))).take k := by
  induction msgs generalizing c with
  | nil => exact ⟨0, le_refl _, by simp [sendLoop]⟩
  | cons m rest ih =>
    cases hf : c.node.faults c.node.log.length with
    | some e => exact ⟨1, by simp, by simp [sendLoop, Conn.Send, hf]⟩
    | none =>
      obtain ⟨k, hk, hlog⟩ := ih
        { node := { c.node with log := c.node.log ++ [ConnOp.Send (Cmd.ZREM key m)] },
          out := c.out ++ [Cmd.ZREM key m], pending := c.pending }
      refine ⟨k + 1, by simpa using hk, ?_⟩
      simp only [sendLoop, Conn.Send, hf]
      rw [hlog]
      simp

theorem receiveLoop_log (msgs : List String) (c : Conn) :
    ∃ k, k ≤ msgs.length ∧ (receiveLoop msgs c).1.node.log
      = c.node.log ++ List.replicate k ConnOp.Receive := by
  induction msgs generalizing c with
  | nil => exact ⟨0, le_refl _, by simp [receiveLoop]⟩
  | cons m rest ih =>
    cases hf : c.node.faults c.node.log.length with
    | some e => exact ⟨1, by simp, by simp [receiveLoop, Conn.Receive, hf]⟩
    | none =>
      cases hp : c.pending with
      | nil => exact ⟨1, by simp, by simp [receiveLoop, Conn.Receive, hf, hp]⟩
      | cons r rs =>
        obtain ⟨k, hk, hlog⟩ := ih
          { node := { c.node with log := c.node.log ++ [ConnOp.Receive] },
            out := c.out, pending := rs }
        refine ⟨k + 1, by simpa using hk, ?_⟩
        simp only [receiveLoop, Conn.Receive, hf, hp]
        rw [hlog]
        simp [List.replicate_succ]

theorem Conn.Flush_log (c : Conn) : c.Flush.1.node.log = c.node.log ++ [ConnOp.Flush] := by
  unfold Conn.Flush
  split <;> rfl

theorem delMultiBody_log (conn : Conn) (info : DelMessageInfo) :
    ∃ k, (delMultiBody conn info).1.node.log
      = conn.node.log ++ (info.Msgs.map (fun m => ConnOp.Send (Cmd.ZREM info.Key m))
          ++ [ConnOp.Flush] ++ List.replicate info.Msgs.length ConnOp.Receive).take k := by
  unfold delMultiBody
  simp only
  cases h1 : (sendLoop info.Key info.Msgs conn).2 with
  | some e =>
    obtain ⟨k, hk, hlog⟩ := sendLoop_log info.Key info.Msgs conn
    refine ⟨k, ?_⟩
    simp only [hlog]
    rw [List.append_assoc, List.take_append_of_le_length (by simpa using hk)]
  | none =>
    obtain ⟨_, s2, _, _⟩ := sendLoop_ok _ _ _ h1
    cases h2 : (sendLoop info.Key info.Msgs conn).1.Flush.2 with
    | some e =>
      refine ⟨info.Msgs.length + 1, ?_⟩
      simp only [Conn.Flush_log, s2]
      rw [List.take_append_of_le_length (by simp)]
      rw [List.take_of_length_le (by simp)]
      simp
    | none =>
      obtain ⟨k, hk, hlog⟩ := receiveLoop_log info.Msgs (sendLoop info.Key info.Msgs conn).1.Flush.1
      refine ⟨info.Msgs.length + 1 + k, ?_⟩
      simp only [hlog, Conn.Flush_log, s2]
      have hlen : (info.Msgs.map (fun m => ConnOp.Send (Cmd.ZREM info.Key m))
          ++ [ConnOp.Flush]).length = info.Msgs.length + 1 := by simp
      rw [← hlen, List.take_append, List.take_replicate, min_eq_left hk]
      simp

theorem zadd_lowest (z : ZSet) (mid : Int) (p : String) (hscores : ∀ e ∈ z, mid < e.1)
    (hnew : p ∉ z.map Prod.snd) : zadd z mid p = (mid, p) :: z := by
  unfold zadd
  have hf : z.filter (fun e => e.2 != p) = z := by
    rw [List.filter_eq_self]
    intro e he
    have : e.2 ≠ p := fun hc => hnew (List.mem_map.2 ⟨e, he, hc⟩)
    simpa using this
  rw [hf]
  cases z with
  | nil => rfl
  | cons b l =>
    have hb : zle (mid, p) b := Or.inl (hscores b (List.mem_cons_self _ _))
    simp [List.orderedInsert, hb]

/-- C9: for every deletion request and every state, the connection operations of
DelMulti on the key's node are, in every run, an initial segment of the sequence
"one ZREM sent per entry of msgs, one flush, one reply awaited per entry",
followed by the close. When DelMulti returns no error the whole sequence was
performed, the key's set is the prior set minus the named members, every other
key and every other node is unchanged, and an empty msgs list leaves the
keyspace unchanged. -/
theorem redis_delMulti_removes_named (s : RedisStorage) (w : RedisWorld)
    (info : DelMessageInfo) (h : Nat) (c : Conn)
    (hconn : s.getConn w info.Key = some (h, c)) :
    (∃ k, ((s.DelMulti w info).1 h).log
      = (w h).log ++ (info.Msgs.map (fun m => ConnOp.Send (Cmd.ZREM info.Key m))
          ++ [ConnOp.Flush] ++ List.replicate info.Msgs.length ConnOp.Receive).take k
          ++ [ConnOp.Close]) ∧
    ((s.DelMulti w info).2 = none →
      ((s.DelMulti w info).1 h).log
        = (w h).log ++ info.Msgs.map (fun m => ConnOp.Send (Cmd.ZREM info.Key m))
            ++ [ConnOp.Flush] ++ List.replicate info.Msgs.length ConnOp.Receive
            ++ [ConnOp.Close] ∧
      ((s.DelMulti w info).1 h).data info.Key
        = ((w h).data info.Key).filter (fun e => decide (e.2 ∉ info.Msgs)) ∧
      (∀ k, k ≠ info.Key → ((s.DelMulti w info).1 h).data k = (w h).data k) ∧
      (∀ n, n ≠ h → (s.DelMulti w info).1 n = w n) ∧
      (info.Msgs = [] → ((s.DelMulti w info).1 h).data = (w h).data)) := by
  have hc := redis_getConn_some s w info.Key h c hconn
  subst hc
  have hdm : s.DelMulti w info
      = (Function.update w h (delMultiBody { node := w h, out := [], pending := [] } info).1.Close,
         (delMultiBody { node := w h, out := [], pending := [] } info).2) := by
    unfold RedisStorage.DelMulti
    rw [hconn]
  rw [hdm]
  refine ⟨?_, ?_⟩
  · obtain ⟨k, hk⟩ := delMultiBody_log { node := w h, out := [], pending := [] } info
    exact ⟨k, by simp [Conn.Close, hk]⟩
  · intro hok
    obtain ⟨hd, hl⟩ := delMultiBody_ok { node := w h, out := [], pending := [] } info rfl hok
    refine ⟨?_, ?_, ?_, ?_, ?_⟩
    · simp [Conn.Close, hl]
    · simp [Conn.Close, hd]
    · intro k hk
      simp [Conn.Close, hd, Function.update_noteq hk]
    · intro n hn
      simp [Function.update_noteq hn]
    · intro hnil
      simp [Conn.Close, hd, hnil]

/-- Witness of C9: with {m1, m2, m3} saved under k and x under j, DelMulti naming
m1 and m3 succeeds, leaves m2 under k and leaves j as it was. -/
theorem redis_delMulti_removes_named_witness :
    (oneNodeRedis.DelMulti cacheThree ackTwo).2 = none ∧
    ((oneNodeRedis.DelMulti cacheThree ackTwo).1 0).data "k" = [(2, "m2")] ∧
    ((oneNodeRedis.DelMulti cacheThree ackTwo).1 0).data "j" = [(9, "x")] := by
  have h := (redis_delMulti_removes_named oneNodeRedis cacheThree ackTwo 0
    { node := cacheThree 0, out := [], pending := [] } rfl).2 rfl
  exact ⟨rfl, h.2.1.trans rfl, (h.2.2.1 "j" (by decide)).trans rfl⟩

set_option maxRecDepth 4000 in
/-- Counterexample to C10: with MaxStore = 1 and a-old stored under k at score
2^53 + 4, which is strictly greater than the sequence id 2^53 + 3, the successful
Save(k, z-new, 2^53 + 3) stores z-new at score 2^53 + 4 as well; the tie ranks
z-new above a-old, so the trim evicts a-old and the new message stays and is
returned by Get(k, 2^53 + 2). -/
theorem redis_save_tied_score_survives :
    (1 : Int) ≤ (((bigScoreWorld 0).data "k").length : Int) ∧
    (∀ e ∈ (bigScoreWorld 0).data "k", (2 ^ 53 + 3 : Int) < e.1) ∧
    "z-new" ∉ ((bigScoreWorld 0).data "k").map Prod.snd ∧
    isInt64 (2 ^ 53 + 3) ∧
    (oneNodeRedis.Save payloadOf 1 bigScoreWorld "k" ⟨"z-new", 0⟩ (2 ^ 53 + 3)).2 = none ∧
    ((oneNodeRedis.Save payloadOf 1 bigScoreWorld "k" ⟨"z-new", 0⟩ (2 ^ 53 + 3)).1 0).data "k"
      = [(2 ^ 53 + 4, "z-new")] ∧
    (oneNodeRedis.Get
        (oneNodeRedis.Save payloadOf 1 bigScoreWorld "k" ⟨"z-new", 0⟩ (2 ^ 53 + 3)).1
        "k" (2 ^ 53 + 3 - 1)).2 = Except.ok ["z-new"] :=
  ⟨by decide, by decide, by decide, by decide, rfl, by decide, rfl⟩

/-- C10 (amended): for every MaxStore within the range of a non-negative Go int
and every key whose ordered set already holds at least MaxStore members, all
with scores strictly greater than the score the server stores for mid (mid
rounded to the nearest double), and does not contain the new payload: a
successful Save evicts the message it has just added in its own trim; the set
afterwards is the prior set cut down to its MaxStore highest ranks, the payload
is not a member of it, and no successful Get on the key returns it, whatever the
watermark. -/
theorem redis_save_evicts_own_message (json : Message → String) (maxStore : Int)
    (s : RedisStorage) (w w1 : RedisWorld) (key : String) (msg : Message) (mid : Int)
    (h : Nat) (c : Conn) (hM0 : 0 ≤ maxStore) (hM : maxStore < 2 ^ 63)
    (_hmid : isInt64 mid)
    (hconn : s.getConn w key = some (h, c))
    (hlen : maxStore ≤ (((w h).data key).length : Int))
    (hscores : ∀ e ∈ (w h).data key, round53 mid < e.1)
    (hnew : json msg ∉ ((w h).data key).map Prod.snd)
    (hok : s.Save json maxStore w key msg mid = (w1, none)) :
    json msg ∉ ((w1 h).data key).map Prod.snd ∧
    (w1 h).data key
      = ((w h).data key).drop (((w h).data key).length - maxStore.toNat) ∧
    (∀ (wm : Int) (w2 : RedisWorld) (reply : List String),
      s.Get w1 key wm = (w2, Except.ok reply) → json msg ∉ reply) := by
  have hs := (redis_save_ok json maxStore s w w1 key msg mid h c hconn hok).1
  rw [wrap64_trim maxStore hM0 hM, zremrangebyrank_trim _ maxStore hM0,
    zadd_lowest _ (round53 mid) (json msg) hscores hnew] at hs
  have hk : ((round53 mid, json msg) :: (w h).data key).length - maxStore.toNat
      = (((w h).data key).length - maxStore.toNat) + 1 := by
    simp only [List.length_cons]
    omega
  rw [hk, List.drop_succ_cons] at hs
  have hnot : json msg ∉ ((w1 h).data key).map Prod.snd := by
    intro hin
    rw [hs] at hin
    obtain ⟨e, he, hp⟩ := List.mem_map.1 hin
    exact hnew (List.mem_map.2 ⟨e, List.mem_of_mem_drop he, hp⟩)
  refine ⟨hnot, hs, ?_⟩
  intro wm w2 reply hget hin
  have hconn1 := redis_getConn_world s w w1 key h c hconn
  have hr := (redis_get_ok s w1 w2 key wm h _ reply hconn1 hget).1
  rw [hr] at hin
  unfold zrangebyscore at hin
  obtain ⟨e, he, hp⟩ := List.mem_map.1 hin
  exact hnot (List.mem_map.2 ⟨e, (List.mem_filter.1 he).1, hp⟩)

/-- Witness of C10: with MaxStore = 1 and m2 stored under k at score 10,
Save(k, m1, 5) reports success and leaves only m2; Get(k, 4) returns m2 alone. -/
theorem redis_save_evicts_own_message_witness :
    (oneNodeRedis.Save payloadOf 1 cacheTen "k" ⟨"m1", 0⟩ 5).2 = none ∧
    "m1" ∉ (((oneNodeRedis.Save payloadOf 1 cacheTen "k" ⟨"m1", 0⟩ 5).1 0).data "k").map
      Prod.snd ∧
    (oneNodeRedis.Get (oneNodeRedis.Save payloadOf 1 cacheTen "k" ⟨"m1", 0⟩ 5).1 "k" 4).2
      = Except.ok ["m2"] :=
  ⟨rfl, (redis_save_evicts_own_message payloadOf 1 oneNodeRedis cacheTen
    (oneNodeRedis.Save payloadOf 1 cacheTen "k" ⟨"m1", 0⟩ 5).1 "k" ⟨"m1", 0⟩ 5 0
    { node := cacheTen 0, out := [], pending := [] } (by decide) (by decide) (by decide) rfl
    (by decide) (by decide) (by decide) (Prod.ext rfl rfl)).1, rfl⟩

end Gopush
